import Mathlib

/-!
Verification of the sync-subdir tool (a TUI tool that syncs the history of a
subdirectory of a source git repository into a target repository).

The development shallowly embeds the program's core logic:

* `sync.rs` (`SyncEngine::sync_commits`): the commit-replay loop, with the
  patch-pipeline outcomes (patch creation / application, which shell out to
  git) abstracted as an oracle `SyncEnv.step`, and the event channel and the
  pipeline invocations reified as explicit traces.
* `git.rs` (`GitManager`): branch switching/creation, stashing, the
  commit-range / file-change resolver `get_file_changes` and its diff filter
  `process_diff`, with the underlying git object store abstracted as a `Repo`
  (commit lookup and revwalk oracles, per-commit diffs as data).
* `main.rs` (`main`): the pre-flight sequence (validation, branch switch or
  creation, dirty-check and stash), the application phase, and the cleanup
  sequence (stash pop, `restore_original_branches`), over an explicit world
  state recording the actual HEADs and stash depth of both repositories.
-/

namespace SyncSubdir

/-! ## Embedding of `sync.rs` -/

/-- `SyncStats` from `sync.rs`. -/
structure SyncStats where
  total_commits : Nat
  synced_commits : Nat
  skipped_commits : Nat
deriving Repr, DecidableEq

/-- The fields of `CommitInfo` (`git.rs`, declared there in the final tool;
used by `sync.rs`) that `sync_commits` reads: identity and subject. -/
structure CommitInfo where
  id : String
  subject : String
deriving Repr, DecidableEq

/-- `SyncEvent` from `sync.rs`. -/
inductive SyncEvent where
  | progress (current : Nat) (total : Nat) (subject : String) (status : String)
  | completed (stats : SyncStats)
  | error (msg : String)
deriving Repr, DecidableEq

/-- Outcome of the patch pipeline for one commit, abstracting
`create_patch_file` followed by `apply_patch_file`:
creation can fail; application can succeed, fail with `SyncError::EmptyPatch`,
or fail with any other error. -/
inductive PatchStep where
  | createFail
  | applyOk
  | applyEmpty
  | applyFail
deriving Repr, DecidableEq

/-- A call into the patch pipeline, recorded as an observable trace entry. -/
inductive PipelineOp where
  | create (id : String)
  | apply (id : String)
deriving Repr, DecidableEq

/-- Abstracted run environment for `sync_commits`: whether the temporary
directory creation succeeds, and the pipeline outcome for each commit. -/
structure SyncEnv where
  tmpOk : Bool
  step : CommitInfo → PatchStep

/-- Errors escaping `sync_commits` (`SyncError` values actually returned). -/
inductive SyncErr where
  | ioTmp
  | createErr (id : String)
  | applyErr (id : String)
deriving Repr, DecidableEq

/-- The commit iteration loop of
`SyncEngine::sync_commits`, with the emitted events and pipeline calls
accumulated as explicit traces.  In dry-run mode the pipeline is skipped and
the commit counted as synced; otherwise the patch is created and applied and
the outcome classified exactly as in the source. -/
def syncLoop (dry : Bool) (env : SyncEnv) (total : Nat) :
    List CommitInfo → Nat → SyncStats → List SyncEvent → List PipelineOp →
    List SyncEvent × List PipelineOp × Except SyncErr SyncStats
  | [], _, stats, evs, ops => (evs ++ [.completed stats], ops, .ok stats)
  | c :: rest, i, stats, evs, ops =>
    if dry then
      syncLoop dry env total rest (i + 1)
        { stats with synced_commits := stats.synced_commits + 1 }
        (evs ++ [.progress (i + 1) total c.subject "PREVIEW"]) ops
    else
      match env.step c with
      | .createFail =>
        (evs ++ [.error ("create patch failed " ++ c.id)],
         ops ++ [.create c.id], .error (.createErr c.id))
      | .applyOk =>
        syncLoop dry env total rest (i + 1)
          { stats with synced_commits := stats.synced_commits + 1 }
          (evs ++ [.progress (i + 1) total c.subject "OK"])
          (ops ++ [.create c.id, .apply c.id])
      | .applyEmpty =>
        syncLoop dry env total rest (i + 1)
          { stats with skipped_commits := stats.skipped_commits + 1 }
          (evs ++ [.progress (i + 1) total c.subject "EMPTY (SKIPPED)"])
          (ops ++ [.create c.id, .apply c.id])
      | .applyFail =>
        (evs ++ [.error ("apply patch failed " ++ c.id)],
         ops ++ [.create c.id, .apply c.id], .error (.applyErr c.id))

/-- `SyncEngine::sync_commits`: initializes the statistics with
`total_commits = commits.len()`, returns immediately with a `Completed` event
on an empty list, otherwise creates the temp directory and runs the loop. -/
def sync_commits (dry : Bool) (env : SyncEnv) (commits : List CommitInfo) :
    List SyncEvent × List PipelineOp × Except SyncErr SyncStats :=
  let stats0 : SyncStats := ⟨commits.length, 0, 0⟩
  if commits.length = 0 then
    ([.completed stats0], [], .ok stats0)
  else if env.tmpOk then
    syncLoop dry env commits.length commits 0 stats0 [] []
  else
    ([], [], .error .ioTmp)


/-! ## Embedding of the commit-range / file-change resolver (`git.rs`) -/

/-- `FileStatus` from `git.rs`. -/
inductive FileStatus where
  | added
  | modified
  | deleted
  | renamed
  | typeChanged
deriving Repr, DecidableEq

/-- `FileChange` from `git.rs`. -/
structure FileChange where
  path : String
  status : FileStatus
  old_path : Option String
deriving Repr, DecidableEq

/-- The `git2::Delta` kinds that `process_diff` matches on (any other kind is
collapsed into `other`, which the source ignores). -/
inductive DeltaKind where
  | added
  | deleted
  | modified
  | renamed
  | typechange
  | other
deriving Repr, DecidableEq

/-- One `git2::DiffDelta` as `process_diff` observes it: the new-file path,
the old-file path (both already converted to strings, with missing paths
read as `""` via `unwrap_or("")` in the source), and the delta kind. -/
structure Delta where
  newPath : String
  oldPath : String
  kind : DeltaKind
deriving Repr, DecidableEq

/-- Rust's `str::trim_end_matches('/')`: remove every trailing slash. -/
def trimEndSlashes (s : String) : String :=
  ⟨(s.data.reverse.dropWhile (fun ch => ch = '/')).reverse⟩

/-- The `subdir_pattern` computed in `get_file_changes` (and
`commit_affects_subdir`): `format!("{}/", subdir.trim_end_matches('/'))`. -/
def subdirPattern (subdir : String) : String :=
  trimEndSlashes subdir ++ "/"

/-- Rust's `str::starts_with` with a string pattern, as a structural prefix
check on the character lists (equivalent to the byte-prefix check on
well-formed UTF-8). -/
def strStartsWith (s pre : String) : Bool :=
  pre.data.isPrefixOf s.data

/-- The filter in `process_diff`: either path is inside the subdirectory when
it starts with the pattern. -/
def inSubdir (pat newPath oldPath : String) : Bool :=
  strStartsWith newPath pat || strStartsWith oldPath pat

/-- The `FileChange` that `process_diff` pushes for one delta that passed the
filter (`none` for delta kinds the source ignores). -/
def deltaChange (d : Delta) : Option FileChange :=
  match d.kind with
  | .added => some ⟨d.newPath, .added, none⟩
  | .deleted => some ⟨d.oldPath, .deleted, none⟩
  | .modified => some ⟨d.newPath, .modified, none⟩
  | .renamed => some ⟨d.newPath, .renamed, some d.oldPath⟩
  | .typechange => some ⟨d.newPath, .typeChanged, none⟩
  | .other => none

/-- `GitManager::process_diff`: iterate the deltas in order, keep those whose
new or old path lies under the subdirectory pattern, and map them to
`FileChange` records. -/
def process_diff (pat : String) (deltas : List Delta) : List FileChange :=
  deltas.filterMap fun d =>
    if inSubdir pat d.newPath d.oldPath then deltaChange d else none

/-- A commit of the abstracted source repository: identity, commit time,
parent identities, and the two diffs `get_file_changes` can request — against
the first parent's tree, and against the empty tree (the source diffs against
`repo.find_tree(Oid::zero()).ok()`, i.e. `None`, which is the empty tree). -/
structure RCommit where
  id : Nat
  time : Nat
  parents : List Nat
  diffParent : List Delta
  diffEmpty : List Delta
deriving Repr, DecidableEq

/-- The abstracted repository: commit lookup (`Repository::find_commit`) and
the revwalk over `push_range("{a}..{b}")`, returned in libgit2 walk order
(newest first), exactly as the source consumes it before reversing. -/
structure Repo where
  find : Nat → Option RCommit
  walk : Nat → Nat → List Nat

/-- The `(range_start, include_start_changes)` pair computed at the top of
`get_file_changes`: with `include_start` set, the lower bound is the start
commit's first parent when it has one, otherwise (root commit) the start
commit itself with the flag left `false`; without `include_start` the lower
bound is the start commit. -/
def rangeStartOf (startC : RCommit) (includeStart : Bool) : Nat × Bool :=
  if includeStart then
    match startC.parents with
    | p :: _ => (p, true)
    | [] => (startC.id, false)
  else (startC.id, false)

/-- The commits of the walked range in processing order: the revwalk output,
looked up via `filter_map(find_commit)` and reversed into chronological
order, exactly as in the source. -/
def rangeCommits (repo : Repo) (rangeStart endId : Nat) : List RCommit :=
  ((repo.walk rangeStart endId).filterMap repo.find).reverse

/-- The changes contributed by one walked commit: skipped entirely when it is
a merge and merges are excluded; otherwise its diff against its first parent
(or against the empty tree for a parentless commit) filtered by the pattern. -/
def commitChanges (pat : String) (excludeMerges : Bool) (c : RCommit) :
    List FileChange :=
  if excludeMerges && decide (c.parents.length > 1) then []
  else
    match c.parents with
    | _ :: _ => process_diff pat c.diffParent
    | [] => process_diff pat c.diffEmpty

/-- The per-commit accumulation loop of `get_file_changes` (`changes` vector),
tagged: each produced change is paired with the commit that produced it, so
that provenance is visible to the specification. -/
def accumTagged (pat : String) (excludeMerges : Bool)
    (acc : List (RCommit × FileChange)) :
    List RCommit → List (RCommit × FileChange)
  | [] => acc
  | c :: rest =>
    accumTagged pat excludeMerges
      (acc ++ (commitChanges pat excludeMerges c).map (fun fc => (c, fc))) rest

/-- First-seen deduplication keyed by a string, as performed with the
`seen_paths` hash set and `Vec::retain` at the end of `get_file_changes`. -/
def dedupGo {α : Type} (key : α → String) (seen : List String) :
    List α → List α
  | [] => []
  | x :: rest =>
    if key x ∈ seen then dedupGo key seen rest
    else x :: dedupGo key (key x :: seen) rest

/-- The full list of tagged changes produced by `get_file_changes` before
deduplication: the walked commits' contributions in chronological order,
followed by the root-commit synthesis block when its guard
(`include_start_changes && start_commit_obj.parents().len() == 0`) holds. -/
def tagged_changes (repo : Repo) (subdir : String) (startC : RCommit)
    (endId : Nat) (includeStart excludeMerges : Bool) :
    List (RCommit × FileChange) :=
  let pat := subdirPattern subdir
  let rs := rangeStartOf startC includeStart
  let base := accumTagged pat excludeMerges [] (rangeCommits repo rs.1 endId)
  if rs.2 && decide (startC.parents.length = 0) then
    base ++ (process_diff pat startC.diffEmpty).map (fun fc => (startC, fc))
  else base

/-- `GitManager::get_file_changes`, tagged with provenance: resolve the range
bounds, walk and process the commits, optionally synthesize the root commit's
changes, then deduplicate by path keeping first occurrences. -/
def get_file_changes_tagged (repo : Repo) (subdir : String) (startC : RCommit)
    (endId : Nat) (includeStart excludeMerges : Bool) :
    List (RCommit × FileChange) :=
  dedupGo (fun p => p.2.path) []
    (tagged_changes repo subdir startC endId includeStart excludeMerges)

/-- The per-commit accumulation loop of `get_file_changes` exactly as in the
source (no provenance): each iteration appends the commit's filtered changes
to the `changes` vector. -/
def accumChanges (pat : String) (excludeMerges : Bool)
    (acc : List FileChange) : List RCommit → List FileChange
  | [] => acc
  | c :: rest =>
    accumChanges pat excludeMerges (acc ++ commitChanges pat excludeMerges c)
      rest

/-- `GitManager::get_file_changes`: compute the subdirectory pattern and the
range bounds, walk the range in chronological order collecting each commit's
filtered changes, append the root-commit synthesis block when its guard
(`include_start_changes && start_commit_obj.parents().len() == 0`) holds, and
finally deduplicate by path with a seen-set, keeping first occurrences. -/
def get_file_changes (repo : Repo) (subdir : String) (startC : RCommit)
    (endId : Nat) (includeStart excludeMerges : Bool) : List FileChange :=
  let pat := subdirPattern subdir
  let rs := rangeStartOf startC includeStart
  let changes := accumChanges pat excludeMerges []
    (rangeCommits repo rs.1 endId)
  let changes :=
    if rs.2 && decide (startC.parents.length = 0) then
      changes ++ process_diff pat startC.diffEmpty
    else changes
  dedupGo (fun fc => fc.path) [] changes

/-! ## Embedding of the repository state manager (`git.rs`) and of `main.rs` -/

/-- `RepoInfo` from `git.rs` (the path kept as an opaque label). -/
structure RepoInfo where
  path : String
  current_branch : String
  original_branch : String
deriving Repr, DecidableEq

/-- `GitManager` from `git.rs`: the two repository handles. -/
structure GitManager where
  source_repo_info : RepoInfo
  target_repo_info : RepoInfo
deriving Repr, DecidableEq

/-- The actual on-disk state the manager mutates: which branch each
repository's HEAD points at, which local branches exist, and how many stash
entries the target repository carries. -/
structure GWorld where
  sourceHead : String
  targetHead : String
  sourceBranches : List String
  targetBranches : List String
  targetStash : Nat
deriving Repr, DecidableEq

/-- `GitManager::switch_branch`: `get_repository(is_source)` selects the
repository; the named branch must resolve under `refs/heads/`, otherwise the
function errors before any mutation; on success HEAD is repointed and the
matching handle's `current_branch` is updated. -/
def switch_branch (isSource : Bool) (name : String) (gm : GitManager)
    (w : GWorld) : Except String (GitManager × GWorld) :=
  let branches := if isSource then w.sourceBranches else w.targetBranches
  if name ∈ branches then
    let w' := if isSource then { w with sourceHead := name }
              else { w with targetHead := name }
    let gm' :=
      if isSource then
        { gm with source_repo_info :=
            { gm.source_repo_info with current_branch := name } }
      else
        { gm with target_repo_info :=
            { gm.target_repo_info with current_branch := name } }
    .ok (gm', w')
  else .error ("Branch does not exist: " ++ name)

/-- `GitManager::create_branch`.  Its parameter is named `is_target`, but the
source passes it straight to `get_repository`, whose parameter is
`is_source`; so `is_target = false` (the call `main` makes) opens and mutates
the TARGET repository, yet the trailing handle update is guarded by
`if is_target` and therefore does not run — the target handle's
`current_branch` is left stale.  The embedding reproduces this inversion
faithfully.  Branch creation uses `force = false`, so an existing branch of
the same name is an error. -/
def create_branch (is_target : Bool) (name : String) (gm : GitManager)
    (w : GWorld) : Except String (GitManager × GWorld) :=
  let branches := if is_target then w.sourceBranches else w.targetBranches
  if name ∈ branches then .error ("Failed to create branch: " ++ name)
  else
    let w' :=
      if is_target then
        { w with sourceBranches := name :: w.sourceBranches,
                 sourceHead := name }
      else
        { w with targetBranches := name :: w.targetBranches,
                 targetHead := name }
    let gm' :=
      if is_target then
        { gm with target_repo_info :=
            { gm.target_repo_info with current_branch := name } }
      else gm
    .ok (gm', w')

/-- Outcomes of the underlying `Repository::stash_save` call. -/
inductive StashSaveOutcome where
  | saved
  | nothingToStash
  | otherFailure
deriving Repr, DecidableEq

/-- `GitManager::stash_changes` (invoked by `main` on the target repository):
create a signature, then `stash_save`; every underlying error — the
nothing-to-stash condition included — is wrapped with the context message and
propagated; the source contains no special-casing. -/
def stash_changes (sigOk : Bool) (outcome : StashSaveOutcome) (w : GWorld) :
    Except String GWorld :=
  if sigOk then
    match outcome with
    | .saved => .ok { w with targetStash := w.targetStash + 1 }
    | .nothingToStash => .error "Failed to stash changes"
    | .otherFailure => .error "Failed to stash changes"
  else .error "Failed to create git signature"

/-- `GitManager::pop_stash`: `stash_pop(0, None)`, which fails when there is
no stash entry or when the pop itself fails (abstracted into `popOk`); no
mutation happens on failure. -/
def pop_stash (popOk : Bool) (w : GWorld) : Except String GWorld :=
  if popOk && decide (0 < w.targetStash) then
    .ok { w with targetStash := w.targetStash - 1 }
  else .error "Failed to pop stash"

/-- `GitManager::restore_original_branches`: switch the source repository
back when its recorded `current_branch` differs from its `original_branch`,
then likewise the target; an error from the source switch propagates
immediately through `?`, so the target restore is then never attempted.  The
state reached so far is returned alongside the outcome, since a propagated
error keeps the mutations already made. -/
def restore_original_branches (gm : GitManager) (w : GWorld) :
    (GitManager × GWorld) × Except String Unit :=
  let step1 :=
    if gm.source_repo_info.current_branch ≠ gm.source_repo_info.original_branch
    then
      match switch_branch true gm.source_repo_info.original_branch gm w with
      | .ok st => (st, Except.ok ())
      | .error e => ((gm, w), Except.error e)
    else ((gm, w), Except.ok ())
  match step1 with
  | (st1, .error e) => (st1, .error e)
  | (st1, .ok ()) =>
    if st1.1.target_repo_info.current_branch ≠
        st1.1.target_repo_info.original_branch then
      match switch_branch false st1.1.target_repo_info.original_branch
          st1.1 st1.2 with
      | .ok st => (st, .ok ())
      | .error e => (st1, .error e)
    else (st1, .ok ())

/-- `Config` from `cli.rs`; the repository path fields, start commit and
verbose flag are abstracted away (path validation is `MainEnv.cfgValid`). -/
structure Config where
  source_branch : Option String
  target_branch : Option String
  end_commit : Option String
  create_branch : Option Bool
  include_start : Option Bool
  no_merge : Option Bool
  sync_delete : Option Bool
  auto_stash : Option Bool
  dry_run : Bool
deriving Repr, DecidableEq

/-- `Config::get_default_target_branch` from `cli.rs`: the explicit target
branch, else the source branch, else `"main"`. -/
def get_default_target_branch (cfg : Config) : String :=
  cfg.target_branch.getD (cfg.source_branch.getD "main")

/-- Outcomes of the fallible external steps of `main` that the embedding
abstracts: path/config validation, repository opening, commit validation,
the dirty check, the stash-save outcome, TUI initialization, the application
phase, and the stash pop. -/
structure MainEnv where
  cfgValid : Bool
  openOk : Bool
  validStart : Bool
  validEnd : Bool
  dirty : Bool
  sigOk : Bool
  stashOutcome : StashSaveOutcome
  tuiOk : Bool
  appOk : Bool
  popOk : Bool
deriving Repr, DecidableEq

/-- The distinct abort points of `main` (each an early error return). -/
inductive MainErr where
  | configInvalid
  | openFailed
  | invalidCommit
  | branchNotFound (name : String)
  | createFailed (name : String)
  | targetBranchMissing (name : String)
  | stashFailed
  | dirtyRepo
  | tuiFailed
  | appFailed
deriving Repr, DecidableEq

/-- The pre-flight phase of `main`, in source order: config validation,
manager construction (capturing original branches), commit validation,
optional source-branch switch, target-branch switch or creation, then the
dirty check with stash-or-abort.  Errors carry the world as mutated so far;
success returns the manager, the world, and whether a stash was created. -/
def mainSetup (cfg : Config) (env : MainEnv) (w0 : GWorld) :
    Except (MainErr × GWorld) (GitManager × GWorld × Bool) :=
  if !env.cfgValid then .error (.configInvalid, w0)
  else if !env.openOk then .error (.openFailed, w0)
  else
    let gm0 : GitManager :=
      ⟨⟨"source", w0.sourceHead, w0.sourceHead⟩,
       ⟨"target", w0.targetHead, w0.targetHead⟩⟩
    if !env.validStart then .error (.invalidCommit, w0)
    else if cfg.end_commit.isSome && !env.validEnd then
      .error (.invalidCommit, w0)
    else
      match (match cfg.source_branch with
             | some b => (switch_branch true b gm0 w0).mapError
                 (fun _ => (MainErr.branchNotFound b, w0))
             | none => .ok (gm0, w0)) with
      | .error e => .error e
      | .ok (gm1, w1) =>
        let tb := get_default_target_branch cfg
        match (if tb ∈ w1.targetBranches then
                 (switch_branch false tb gm1 w1).mapError
                   (fun _ => (MainErr.branchNotFound tb, w1))
               else if cfg.create_branch.getD true then
                 (create_branch false tb gm1 w1).mapError
                   (fun _ => (MainErr.createFailed tb, w1))
               else .error (.targetBranchMissing tb, w1)) with
        | .error e => .error e
        | .ok (gm2, w2) =>
          if env.dirty then
            if cfg.auto_stash.getD true then
              match stash_changes env.sigOk env.stashOutcome w2 with
              | .ok w3 => .ok (gm2, w3, true)
              | .error _ => .error (.stashFailed, w2)
            else .error (.dirtyRepo, w2)
          else .ok (gm2, w2, false)

/-- `main`: run the pre-flight phase; on its failure the process exits at
once with all mutations kept (no cleanup runs).  Otherwise initialize the
TUI — whose failure is also an early `?` return that skips all cleanup —
run the application, then clean up: pop the stash if one was created
(failure only logged) and restore original branches (failure only logged),
finally returning the application result.  The third component records
whether the application phase ran. -/
def mainRun (cfg : Config) (env : MainEnv) (w0 : GWorld) :
    Except MainErr Unit × GWorld × Bool :=
  match mainSetup cfg env w0 with
  | .error (e, w) => (.error e, w, false)
  | .ok (gm, w, stashed) =>
    if !env.tuiOk then (.error .tuiFailed, w, false)
    else
      let appResult : Except MainErr Unit :=
        if env.appOk then .ok () else .error .appFailed
      let w1 :=
        if stashed then
          match pop_stash env.popOk w with
          | .ok w' => w'
          | .error _ => w
        else w
      let w2 := ((restore_original_branches gm w1).1).2
      (appResult, w2, true)

/-! ## Concrete inputs used by counterexamples and witnesses -/

/-- A root commit whose only change (against the empty tree) lies in
`lib/`. -/
def rootC : RCommit := ⟨0, 0, [], [], [⟨"lib/a.txt", "lib/a.txt", .added⟩]⟩

/-- A repository containing only `rootC`; any range walk is empty. -/
def rootRepo : Repo := ⟨fun i => if i = 0 then some rootC else none,
  fun _ _ => []⟩

/-- A commit with one parent touching two distinct files under `lib/`. -/
def dupC : RCommit :=
  ⟨1, 5, [0], [⟨"lib/a", "lib/a", .added⟩, ⟨"lib/b", "lib/b", .added⟩], []⟩

/-- A repository whose range walk yields exactly `dupC`. -/
def dupRepo : Repo := ⟨fun i => if i = 1 then some dupC else none,
  fun _ _ => [1]⟩

/-- A manager state in which both repositories sit on `main`. -/
def gmMain : GitManager := ⟨⟨"source", "main", "main"⟩,
  ⟨"target", "main", "main"⟩⟩

/-- A world in which both repositories sit on their sole branch `main`. -/
def wMain : GWorld := ⟨"main", "main", ["main"], ["main"], 0⟩

/-- A world whose target repository sits on `master` and has no branch named
`main`, so `main`'s default target branch must be created. -/
def wSplit : GWorld := ⟨"main", "master", ["main"], ["master"], 0⟩

/-- A configuration with every optional flag left at its default. -/
def cfgAll : Config := ⟨none, none, none, none, none, none, none, none, false⟩

/-- An environment in which every external step succeeds and the target
repository is clean. -/
def envAll : MainEnv :=
  ⟨true, true, true, true, false, true, .saved, true, true, true⟩

/-- A configuration requesting the source branch `dev` and target branch
`master`, with auto-stash disabled. -/
def cfgC5 : Config :=
  ⟨some "dev", some "master", none, none, none, none, none, some false, false⟩

/-- An environment in which every external step succeeds but the target
repository has uncommitted changes. -/
def envC5 : MainEnv :=
  ⟨true, true, true, true, true, true, .saved, true, true, true⟩

/-- A world with source on `main` (branches `main`, `dev`) and target on its
sole branch `master`. -/
def wC5 : GWorld := ⟨"main", "master", ["main", "dev"], ["master"], 0⟩

/-! ## Theorems: sync engine (claims C3, C4, C10) -/

/-- Auxiliary: if a `completed` event appears in the events produced by
`syncLoop`, it was either already in the accumulator, or it carries the final
statistics, whose `total_commits` equals the accumulator statistics' and whose
`synced + skipped` grew by exactly the number of remaining commits. -/
theorem completed_mem_syncLoop (dry : Bool) (env : SyncEnv) (total : Nat) :
    ∀ (commits : List CommitInfo) (i : Nat) (stats : SyncStats)
      (evs : List SyncEvent) (ops : List PipelineOp) (st : SyncStats),
      SyncEvent.completed st ∈ (syncLoop dry env total commits i stats evs ops).1 →
      SyncEvent.completed st ∈ evs ∨
        (st.total_commits = stats.total_commits ∧
         st.synced_commits + st.skipped_commits =
           stats.synced_commits + stats.skipped_commits + commits.length) := by
  intro commits
  induction commits with
  | nil =>
    intro i stats evs ops st h
    simp only [syncLoop, List.mem_append, List.mem_singleton] at h
    rcases h with h | h
    · exact Or.inl h
    · right
      injection h with h
      subst h
      exact ⟨rfl, by simp⟩
  | cons c rest ih =>
    intro i stats evs ops st h
    simp only [syncLoop] at h
    by_cases hdry : dry = true
    · rw [if_pos hdry] at h
      rcases ih _ _ _ _ _ h with h' | h'
      · rcases List.mem_append.mp h' with h'' | h''
        · exact Or.inl h''
        · simp at h''
      · right
        refine ⟨h'.1, ?_⟩
        have h2 : st.synced_commits + st.skipped_commits =
            stats.synced_commits + 1 + stats.skipped_commits + rest.length := h'.2
        simp only [List.length_cons]
        omega
    · rw [if_neg hdry] at h
      cases hstep : env.step c <;> rw [hstep] at h
      · rcases List.mem_append.mp h with h'' | h''
        · exact Or.inl h''
        · simp at h''
      · rcases ih _ _ _ _ _ h with h' | h'
        · rcases List.mem_append.mp h' with h'' | h''
          · exact Or.inl h''
          · simp at h''
        · right
          refine ⟨h'.1, ?_⟩
          have h2 : st.synced_commits + st.skipped_commits =
              stats.synced_commits + 1 + stats.skipped_commits + rest.length := h'.2
          simp only [List.length_cons]
          omega
      · rcases ih _ _ _ _ _ h with h' | h'
        · rcases List.mem_append.mp h' with h'' | h''
          · exact Or.inl h''
          · simp at h''
        · right
          refine ⟨h'.1, ?_⟩
          have h2 : st.synced_commits + st.skipped_commits =
              stats.synced_commits + (stats.skipped_commits + 1) + rest.length := h'.2
          simp only [List.length_cons]
          omega
      · rcases List.mem_append.mp h with h'' | h''
        · exact Or.inl h''
        · simp at h''

/-- C4: every `Completed` event emitted by `sync_commits` carries statistics
with `total_commits = synced_commits + skipped_commits`, and that common value
equals the number of input commits, so every input commit is counted exactly
once (never twice) across the two counters. -/
theorem c4_theorem (dry : Bool) (env : SyncEnv) (commits : List CommitInfo)
    (st : SyncStats)
    (h : SyncEvent.completed st ∈ (sync_commits dry env commits).1) :
    st.total_commits = st.synced_commits + st.skipped_commits ∧
      st.total_commits = commits.length := by
  unfold sync_commits at h
  by_cases h0 : commits.length = 0
  · rw [if_pos h0] at h
    simp only [List.mem_singleton] at h
    injection h with h
    subst h
    exact ⟨by simp [h0], rfl⟩
  · rw [if_neg h0] at h
    by_cases htmp : env.tmpOk = true
    · rw [if_pos htmp] at h
      rcases completed_mem_syncLoop dry env commits.length commits 0
        ⟨commits.length, 0, 0⟩ [] [] st h with h' | h'
      · simp at h'
      · obtain ⟨h1, h2⟩ := h'
        simp only at h1 h2
        omega
    · rw [if_neg htmp] at h
      simp at h

/-- C4 witness: a singleton run whose patch applies cleanly emits
`Completed ⟨1, 1, 0⟩`, and the theorem yields `1 = 1 + 0` for it. -/
theorem c4_witness :
    (1 : Nat) = 1 + 0 ∧ (1 : Nat) = [CommitInfo.mk "a" "sa"].length := by
  have hmem : SyncEvent.completed ⟨1, 1, 0⟩ ∈
      (sync_commits false ⟨true, fun _ => .applyOk⟩ [CommitInfo.mk "a" "sa"]).1 := by
    simp [sync_commits, syncLoop]
  exact c4_theorem false ⟨true, fun _ => .applyOk⟩ [CommitInfo.mk "a" "sa"] ⟨1, 1, 0⟩ hmem

/-- C3: in a non-dry run, one loop step on a commit whose patch application
reports `EmptyPatch` increments only the skipped counter (the synced counter
and the rest of the statistics are untouched) and continues the loop on the
remaining commits; a commit whose patch creation fails, or whose application
fails with any error other than `EmptyPatch`, makes the loop return the error
immediately — the remaining commits are not processed and no counter is
incremented. -/
theorem c3_theorem (env : SyncEnv) (total : Nat) (c : CommitInfo)
    (rest : List CommitInfo) (i : Nat) (stats : SyncStats)
    (evs : List SyncEvent) (ops : List PipelineOp) :
    (env.step c = .applyEmpty →
      syncLoop false env total (c :: rest) i stats evs ops =
        syncLoop false env total rest (i + 1)
          { stats with skipped_commits := stats.skipped_commits + 1 }
          (evs ++ [.progress (i + 1) total c.subject "EMPTY (SKIPPED)"])
          (ops ++ [.create c.id, .apply c.id])) ∧
    (env.step c = .createFail →
      syncLoop false env total (c :: rest) i stats evs ops =
        (evs ++ [.error ("create patch failed " ++ c.id)],
         ops ++ [.create c.id], .error (.createErr c.id))) ∧
    (env.step c = .applyFail →
      syncLoop false env total (c :: rest) i stats evs ops =
        (evs ++ [.error ("apply patch failed " ++ c.id)],
         ops ++ [.create c.id, .apply c.id], .error (.applyErr c.id))) := by
  refine ⟨fun h => ?_, fun h => ?_, fun h => ?_⟩ <;>
    simp [syncLoop, h]

/-- C3 witness: concrete step instances — an `EmptyPatch` commit is skipped
and the loop continues; an other-error commit halts the loop at once. -/
theorem c3_witness :
    (syncLoop false ⟨true, fun c => if c.id = "a" then .applyEmpty else .applyFail⟩ 2
        [⟨"a", "sa"⟩, ⟨"b", "sb"⟩] 0 ⟨2, 0, 0⟩ [] [] =
      syncLoop false ⟨true, fun c => if c.id = "a" then .applyEmpty else .applyFail⟩ 2
        [⟨"b", "sb"⟩] 1 ⟨2, 0, 1⟩
        [.progress 1 2 "sa" "EMPTY (SKIPPED)"] [.create "a", .apply "a"]) ∧
    (syncLoop false ⟨true, fun c => if c.id = "a" then .applyEmpty else .applyFail⟩ 2
        [⟨"b", "sb"⟩] 1 ⟨2, 0, 1⟩
        [.progress 1 2 "sa" "EMPTY (SKIPPED)"] [.create "a", .apply "a"] =
      ([.progress 1 2 "sa" "EMPTY (SKIPPED)", .error ("apply patch failed " ++ "b")],
       [.create "a", .apply "a", .create "b", .apply "b"], .error (.applyErr "b"))) := by
  constructor
  · exact (c3_theorem ⟨true, fun c => if c.id = "a" then .applyEmpty else .applyFail⟩ 2
      ⟨"a", "sa"⟩ [⟨"b", "sb"⟩] 0 ⟨2, 0, 0⟩ [] []).1 (by decide)
  · have h := (c3_theorem ⟨true, fun c => if c.id = "a" then .applyEmpty else .applyFail⟩ 2
      ⟨"b", "sb"⟩ [] 1 ⟨2, 0, 1⟩
      [.progress 1 2 "sa" "EMPTY (SKIPPED)"] [.create "a", .apply "a"]).2.2 (by decide)
    simpa using h

/-- C10: calling `sync_commits` on an empty commit list returns `Ok` with all
three counters zero, emits exactly one event — a `Completed` carrying those
zero statistics (no `Progress`, no `Error`) — and performs no patch-pipeline
call at all. -/
theorem c10_theorem (dry : Bool) (env : SyncEnv) :
    sync_commits dry env [] =
      ([SyncEvent.completed ⟨0, 0, 0⟩], [], .ok ⟨0, 0, 0⟩) := rfl


/-! ## Theorems: the commit-range resolver (claims C2, C7, C8) -/

/-- C2: on a repository whose start commit is a root commit, with
`include_start = true`, `get_file_changes` returns the empty list — the
root-commit synthesis block does not fire (its guard needs
`include_start_changes`, which the range computation sets to `false`
precisely when the start commit has no parent) — even though the root
commit's diff against the empty tree contains a change inside the
subdirectory, which the synthesis block would have contributed. -/
theorem c2_theorem :
    get_file_changes rootRepo "lib" rootC 0 true false = [] ∧
    process_diff (subdirPattern "lib") rootC.diffEmpty =
      [⟨"lib/a.txt", FileStatus.added, none⟩] := by
  constructor
  · rfl
  · decide

/-- C7 counterexample: with an empty subdirectory string the pattern is
`"/"`, which the repository-relative path `a.txt` does not start with, so
the affects-filter is `false` — not `true` as the claim states. -/
theorem c7_counterexample :
    inSubdir (subdirPattern "") "a.txt" "a.txt" = false := by decide

/-- C7 (amended): for subdirectory `""` the pattern is `"/"` and for `"."`
it is `"./"`; no repository-relative path starts with either, so the filter
rejects every delta and `process_diff` returns the empty list — every change
is filtered out, the opposite of "no filtering". -/
theorem c7_theorem (deltas : List Delta)
    (h1 : ∀ d ∈ deltas, strStartsWith d.newPath "/" = false ∧
      strStartsWith d.oldPath "/" = false)
    (h2 : ∀ d ∈ deltas, strStartsWith d.newPath "./" = false ∧
      strStartsWith d.oldPath "./" = false) :
    subdirPattern "" = "/" ∧ subdirPattern "." = "./" ∧
    process_diff (subdirPattern "") deltas = [] ∧
    process_diff (subdirPattern ".") deltas = [] := by
  have hp0 : subdirPattern "" = "/" := by decide
  have hp1 : subdirPattern "." = "./" := by decide
  refine ⟨hp0, hp1, ?_, ?_⟩
  · rw [process_diff, List.filterMap_eq_nil_iff]
    intro d hd
    rw [hp0]
    simp only [inSubdir, (h1 d hd).1, (h1 d hd).2]
    simp
  · rw [process_diff, List.filterMap_eq_nil_iff]
    intro d hd
    rw [hp1]
    simp only [inSubdir, (h2 d hd).1, (h2 d hd).2]
    simp


/-- C7 witness: a concrete relative-path delta is filtered out under both the
empty and the dot subdirectory. -/
theorem c7_witness :
    subdirPattern "" = "/" ∧ subdirPattern "." = "./" ∧
    process_diff (subdirPattern "") [⟨"a.txt", "a.txt", .added⟩] = [] ∧
    process_diff (subdirPattern ".") [⟨"a.txt", "a.txt", .added⟩] = [] :=
  c7_theorem [⟨"a.txt", "a.txt", .added⟩] (by decide) (by decide)

/-- First-seen deduplication is a sublist of its input (order-preserving, no
element invented). -/
theorem dedupGo_sublist {α : Type} (key : α → String) :
    ∀ (l : List α) (seen : List String),
      List.Sublist (dedupGo key seen l) l := by
  intro l
  induction l with
  | nil => intro seen; simp [dedupGo]
  | cons x rest ih =>
    intro seen
    by_cases hx : key x ∈ seen
    · rw [dedupGo, if_pos hx]
      exact (ih seen).cons x
    · rw [dedupGo, if_neg hx]
      exact (ih _).cons₂ x

/-- Every element surviving deduplication has a key outside the seen-set. -/
theorem mem_dedupGo {α : Type} (key : α → String) :
    ∀ (l : List α) (seen : List String) (x : α),
      x ∈ dedupGo key seen l → key x ∉ seen := by
  intro l
  induction l with
  | nil => intro seen x h; simp [dedupGo] at h
  | cons y rest ih =>
    intro seen x h
    by_cases hy : key y ∈ seen
    · rw [dedupGo, if_pos hy] at h
      exact ih seen x h
    · rw [dedupGo, if_neg hy] at h
      rcases List.mem_cons.mp h with h | h
      · subst h; exact hy
      · intro hmem
        exact ih _ x h (List.mem_cons_of_mem _ hmem)

/-- The keys of a deduplicated list are pairwise distinct. -/
theorem dedupGo_nodup {α : Type} (key : α → String) :
    ∀ (l : List α) (seen : List String),
      ((dedupGo key seen l).map key).Nodup := by
  intro l
  induction l with
  | nil => intro seen; simp [dedupGo]
  | cons x rest ih =>
    intro seen
    by_cases hx : key x ∈ seen
    · rw [dedupGo, if_pos hx]; exact ih seen
    · rw [dedupGo, if_neg hx]
      simp only [List.map_cons, List.nodup_cons]
      refine ⟨?_, ih _⟩
      intro hmem
      rcases List.mem_map.mp hmem with ⟨y, hy, hky⟩
      exact mem_dedupGo key rest (key x :: seen) y hy
        (by rw [hky]; exact List.mem_cons_self _ _)

/-- Deduplication keeps, for every key value not already seen, exactly the
first occurrence: searching the deduplicated list for a key finds the same
element as searching the original list. -/
theorem dedupGo_find {α : Type} (key : α → String) (s : String) :
    ∀ (l : List α) (seen : List String), s ∉ seen →
      (dedupGo key seen l).find? (fun x => key x == s) =
        l.find? (fun x => key x == s) := by
  intro l
  induction l with
  | nil => intro seen _; simp [dedupGo]
  | cons x rest ih =>
    intro seen hs
    by_cases hx : key x ∈ seen
    · rw [dedupGo, if_pos hx]
      have hxs : key x ≠ s := fun h => hs (h ▸ hx)
      rw [List.find?_cons_of_neg _ (by simpa using hxs)]
      exact ih seen hs
    · rw [dedupGo, if_neg hx]
      by_cases hxs : key x = s
      · rw [List.find?_cons_of_pos _ (by simpa using hxs),
          List.find?_cons_of_pos _ (by simpa using hxs)]
      · rw [List.find?_cons_of_neg _ (by simpa using hxs),
          List.find?_cons_of_neg _ (by simpa using hxs)]
        refine ih _ ?_
        intro hmem
        rcases List.mem_cons.mp hmem with h | h
        · exact hxs h.symm
        · exact hs h

/-- Deduplication commutes with projecting out the tag, since the key only
looks at the projected part. -/
theorem dedupGo_map {α β : Type} (f : α → β) (key : β → String) :
    ∀ (l : List α) (seen : List String),
      (dedupGo (fun a => key (f a)) seen l).map f =
        dedupGo key seen (l.map f) := by
  intro l
  induction l with
  | nil => intro seen; simp [dedupGo]
  | cons x rest ih =>
    intro seen
    by_cases hx : key (f x) ∈ seen
    · simp only [dedupGo, List.map_cons, if_pos hx]
      exact ih seen
    · simp only [dedupGo, List.map_cons, if_neg hx]
      rw [ih]

/-- The tagged accumulation loop splits off its accumulator. -/
theorem accumTagged_eq (pat : String) (em : Bool) :
    ∀ (cs : List RCommit) (acc : List (RCommit × FileChange)),
      accumTagged pat em acc cs = acc ++ accumTagged pat em [] cs := by
  intro cs
  induction cs with
  | nil => intro acc; simp [accumTagged]
  | cons c rest ih =>
    intro acc
    rw [accumTagged, ih, accumTagged,
      ih (([] : List (RCommit × FileChange)) ++
        (commitChanges pat em c).map fun fc => (c, fc))]
    simp

/-- Erasing the tags from the tagged accumulation loop yields the source's
untagged accumulation loop. -/
theorem accumTagged_map (pat : String) (em : Bool) :
    ∀ (cs : List RCommit) (acc : List (RCommit × FileChange)),
      (accumTagged pat em acc cs).map (fun p => p.2) =
        accumChanges pat em (acc.map (fun p => p.2)) cs := by
  intro cs
  induction cs with
  | nil => intro acc; simp [accumTagged, accumChanges]
  | cons c rest ih =>
    intro acc
    rw [accumTagged, accumChanges, ih]
    have : ((acc ++ (commitChanges pat em c).map fun fc => (c, fc)).map
        (fun p => p.2)) = acc.map (fun p => p.2) ++ commitChanges pat em c := by
      simp [List.map_map, Function.comp]
    rw [this]

/-- Every tagged change is tagged with one of the walked commits. -/
theorem mem_accumTagged (pat : String) (em : Bool) :
    ∀ (cs : List RCommit) (p : RCommit × FileChange),
      p ∈ accumTagged pat em [] cs → p.1 ∈ cs := by
  intro cs
  induction cs with
  | nil => intro p h; simp [accumTagged] at h
  | cons c rest ih =>
    intro p h
    rw [accumTagged, accumTagged_eq] at h
    rcases List.mem_append.mp h with h | h
    · rcases List.mem_map.mp (by simpa using h) with ⟨fc, _, hfc⟩
      rw [← hfc]
      exact List.mem_cons_self _ _
    · exact List.mem_cons_of_mem _ (ih p h)

/-- A list is pairwise related by a relation that holds universally. -/
theorem pairwise_of_total {β : Type} (P : β → β → Prop) (hP : ∀ a b, P a b) :
    ∀ l : List β, l.Pairwise P := by
  intro l
  induction l with
  | nil => exact List.Pairwise.nil
  | cons x rest ih => exact List.Pairwise.cons (fun b _ => hP x b) ih

/-- Commits processed in non-decreasing time order produce a tagged change
list whose tags are in non-decreasing time order. -/
theorem accumTagged_pairwise (pat : String) (em : Bool) :
    ∀ cs : List RCommit,
      cs.Pairwise (fun a b => a.time ≤ b.time) →
      (accumTagged pat em [] cs).Pairwise
        (fun p q => p.1.time ≤ q.1.time) := by
  intro cs
  induction cs with
  | nil => intro _; simp [accumTagged]
  | cons c rest ih =>
    intro h
    rw [List.pairwise_cons] at h
    rw [accumTagged, accumTagged_eq, List.nil_append, List.pairwise_append]
    refine ⟨?_, ih h.2, ?_⟩
    · rw [List.pairwise_map]
      exact pairwise_of_total _ (fun a b => le_refl c.time) _
    · intro a ha b hb
      rcases List.mem_map.mp ha with ⟨fc, _, hfc⟩
      have hb1 := mem_accumTagged pat em rest b hb
      rw [← hfc]
      exact h.1 b.1 hb1

/-- The `include_start_changes` flag is set only when the start commit has a
first parent. -/
theorem rangeStartOf_root (startC : RCommit) (inc : Bool)
    (h : (rangeStartOf startC inc).2 = true) : startC.parents ≠ [] := by
  intro hnil
  rw [rangeStartOf, hnil] at h
  by_cases hi : inc <;> simp [hi] at h

/-- The root-commit synthesis guard of `get_file_changes` is never satisfied
(`include_start_changes` requires a first parent, the guard requires no
parents), so the tagged change list is just the walked range's. -/
theorem tagged_changes_eq (repo : Repo) (subdir : String) (startC : RCommit)
    (endId : Nat) (inc em : Bool) :
    tagged_changes repo subdir startC endId inc em =
      accumTagged (subdirPattern subdir) em []
        (rangeCommits repo (rangeStartOf startC inc).1 endId) := by
  have hg : ((rangeStartOf startC inc).2 &&
      decide (startC.parents.length = 0)) = false := by
    cases h2 : (rangeStartOf startC inc).2
    · simp
    · have := rangeStartOf_root startC inc h2
      simp [List.length_eq_zero, this]
  simp only [tagged_changes, hg, Bool.false_eq_true, if_false]

/-- Likewise for the untagged list of the source function. -/
theorem get_file_changes_eq (repo : Repo) (subdir : String) (startC : RCommit)
    (endId : Nat) (inc em : Bool) :
    get_file_changes repo subdir startC endId inc em =
      dedupGo (fun fc => fc.path) []
        (accumChanges (subdirPattern subdir) em []
          (rangeCommits repo (rangeStartOf startC inc).1 endId)) := by
  have hg : ((rangeStartOf startC inc).2 &&
      decide (startC.parents.length = 0)) = false := by
    cases h2 : (rangeStartOf startC inc).2
    · simp
    · have := rangeStartOf_root startC inc h2
      simp [List.length_eq_zero, this]
  simp only [get_file_changes, hg, Bool.false_eq_true, if_false]

/-- C8 counterexample: a single commit touching two files under `lib/` makes
the resolver return two entries tagged with the same commit identity, so the
resolved list does contain duplicate commit identities — deduplication is not
by commit identity. -/
theorem c8_counterexample :
    (get_file_changes_tagged dupRepo "lib" rootC 1 false false).map
      (fun p => p.1.id) = [1, 1] := by decide

/-- C8 (amended): assuming the revwalk yields commits newest-first (libgit2
walk order), the resolved list (with provenance tags) is chronologically
non-decreasing in the tagging commit's time; it has pairwise-distinct file
paths; it is an order-preserving sublist of the pre-deduplication change
list, keeping for each path exactly its first-seen occurrence — so
deduplication is by file path, not by commit identity — and erasing the tags
yields exactly the list `get_file_changes` returns. -/
theorem c8_theorem (repo : Repo) (subdir : String) (startC : RCommit)
    (endId : Nat) (includeStart excludeMerges : Bool)
    (hwalk : ∀ a b : Nat, ((repo.walk a b).filterMap repo.find).Pairwise
      (fun c d => d.time ≤ c.time)) :
    ((get_file_changes_tagged repo subdir startC endId includeStart
        excludeMerges).map (fun p => p.2.path)).Nodup ∧
    (get_file_changes_tagged repo subdir startC endId includeStart
        excludeMerges).Pairwise (fun p q => p.1.time ≤ q.1.time) ∧
    List.Sublist
      (get_file_changes_tagged repo subdir startC endId includeStart
        excludeMerges)
      (tagged_changes repo subdir startC endId includeStart excludeMerges) ∧
    (∀ s : String,
      (get_file_changes_tagged repo subdir startC endId includeStart
          excludeMerges).find? (fun p => p.2.path == s) =
        (tagged_changes repo subdir startC endId includeStart
            excludeMerges).find? (fun p => p.2.path == s)) ∧
    (get_file_changes_tagged repo subdir startC endId includeStart
        excludeMerges).map (fun p => p.2) =
      get_file_changes repo subdir startC endId includeStart excludeMerges := by
  refine ⟨dedupGo_nodup _ _ _, ?_, dedupGo_sublist _ _ _,
    fun s => dedupGo_find _ s _ [] (by simp), ?_⟩
  · have hchron : (rangeCommits repo (rangeStartOf startC includeStart).1
        endId).Pairwise (fun a b => a.time ≤ b.time) := by
      rw [rangeCommits, List.pairwise_reverse]
      exact hwalk _ _
    have hbase := accumTagged_pairwise (subdirPattern subdir) excludeMerges _
      hchron
    rw [get_file_changes_tagged, tagged_changes_eq]
    exact List.Pairwise.sublist (dedupGo_sublist _ _ _) hbase
  · rw [get_file_changes_tagged, tagged_changes_eq, get_file_changes_eq]
    have hm := dedupGo_map (fun p : RCommit × FileChange => p.2)
      (fun fc => fc.path)
      (accumTagged (subdirPattern subdir) excludeMerges []
        (rangeCommits repo (rangeStartOf startC includeStart).1 endId)) []
    rw [hm, accumTagged_map]
    simp

/-- C8 witness: on the two-file single-commit repository the amended theorem
yields distinct paths in the resolver output. -/
theorem c8_witness :
    ((get_file_changes_tagged dupRepo "lib" rootC 1 false false).map
      (fun p => p.2.path)).Nodup :=
  (c8_theorem dupRepo "lib" rootC 1 false false
    (fun a b => by
      have h : (dupRepo.walk a b).filterMap dupRepo.find = [dupC] := rfl
      rw [h]
      simp)).1


/-! ## Theorems: repository state manager and `main` (claims C1, C5, C6, C9) -/

/-- C6 counterexample: a stash invocation whose underlying `stash_save`
reports the nothing-to-stash condition returns the wrapped error, not
success. -/
theorem c6_counterexample :
    stash_changes true StashSaveOutcome.nothingToStash wMain =
      .error "Failed to stash changes" := rfl

/-- C6 (amended): the stash operation succeeds exactly when signature
creation succeeds and the underlying save actually stashed something; every
underlying error — nothing-to-stash included — is propagated as an error, and
a successful save pushes one stash entry. -/
theorem c6_theorem (sigOk : Bool) (outcome : StashSaveOutcome) (w : GWorld) :
    (stash_changes sigOk outcome w).toOption.isSome =
      (sigOk && decide (outcome = StashSaveOutcome.saved)) ∧
    stash_changes true StashSaveOutcome.saved w =
      .ok { w with targetStash := w.targetStash + 1 } := by
  refine ⟨?_, rfl⟩
  cases sigOk <;> cases outcome <;> rfl

/-- C9: evaluating `create_branch` at the call shape `main` uses
(`is_target = false`, i.e. operating on the target repository): the target
HEAD is repointed to the freshly created branch, but the returned manager is
unchanged — the target handle's `current_branch` still names the old branch,
refuting that `current_branch` is updated on every switch. -/
theorem c9_theorem :
    create_branch false "feature" gmMain wMain =
      .ok (gmMain, ⟨"main", "feature", ["main"], ["feature", "main"], 0⟩) ∧
    gmMain.target_repo_info.current_branch = "main" := by
  exact ⟨rfl, rfl⟩

/-- A source-repository branch switch to an existing branch succeeds and
updates both the HEAD and the handle. -/
theorem switch_branch_src (b : String) (gm : GitManager) (w : GWorld)
    (h : b ∈ w.sourceBranches) :
    switch_branch true b gm w =
      .ok ({ gm with source_repo_info :=
              { gm.source_repo_info with current_branch := b } },
           { w with sourceHead := b }) := by
  simp [switch_branch, h]

/-- A target-repository branch switch to an existing branch succeeds and
updates both the HEAD and the handle. -/
theorem switch_branch_tgt (b : String) (gm : GitManager) (w : GWorld)
    (h : b ∈ w.targetBranches) :
    switch_branch false b gm w =
      .ok ({ gm with target_repo_info :=
              { gm.target_repo_info with current_branch := b } },
           { w with targetHead := b }) := by
  simp [switch_branch, h]

/-- Characterization of a pre-flight phase in which every step succeeds and
the target branch already exists: the handles carry the original branches,
the HEADs sit on the requested branches, the branch sets are unchanged, and a
stash entry was pushed exactly when the target was dirty. -/
theorem mainSetup_ok (cfg : Config) (env : MainEnv) (w0 : GWorld)
    (hc : env.cfgValid = true) (ho : env.openOk = true)
    (hv : env.validStart = true) (hve : env.validEnd = true)
    (hsb : ∀ b, cfg.source_branch = some b → b ∈ w0.sourceBranches)
    (htb : get_default_target_branch cfg ∈ w0.targetBranches)
    (hd : env.dirty = true → cfg.auto_stash.getD true = true ∧
      env.sigOk = true ∧ env.stashOutcome = StashSaveOutcome.saved) :
    mainSetup cfg env w0 =
      .ok (⟨⟨"source", cfg.source_branch.getD w0.sourceHead, w0.sourceHead⟩,
            ⟨"target", get_default_target_branch cfg, w0.targetHead⟩⟩,
           { w0 with
               sourceHead := cfg.source_branch.getD w0.sourceHead,
               targetHead := get_default_target_branch cfg,
               targetStash :=
                 w0.targetStash + (if env.dirty then 1 else 0) },
           env.dirty) := by
  rw [mainSetup]
  rw [hc, ho, hv, hve]
  simp only [Bool.not_true, Bool.false_eq_true, if_false, Bool.and_false]
  cases hsbv : cfg.source_branch with
  | none =>
    simp only
    rw [if_pos htb, switch_branch_tgt _ _ _ htb]
    simp only [Except.mapError]
    cases hdv : env.dirty with
    | false => simp [hsbv]
    | true =>
      obtain ⟨ha, hsig, hout⟩ := hd hdv
      rw [ha]
      simp only [if_true, stash_changes, hsig, hout, if_pos rfl]
      simp [hsbv]
  | some b =>
    have hb := hsb b hsbv
    simp only
    rw [switch_branch_src b _ _ hb]
    simp only [Except.mapError]
    have htb2 : get_default_target_branch cfg ∈
        ({ w0 with sourceHead := b } : GWorld).targetBranches := htb
    rw [if_pos htb2, switch_branch_tgt _ _ _ htb2]
    simp only [Except.mapError]
    cases hdv : env.dirty with
    | false => simp [hsbv]
    | true =>
      obtain ⟨ha, hsig, hout⟩ := hd hdv
      rw [ha]
      simp only [if_true, stash_changes, hsig, hout, if_pos rfl]
      simp [hsbv]


/-- If the recorded current branches match the actual HEADs and both original
branches still exist, `restore_original_branches` puts both HEADs back on the
originals and leaves the stash depth and branch sets unchanged. -/
theorem restore_ok (gm : GitManager) (w : GWorld)
    (h1 : w.sourceHead = gm.source_repo_info.current_branch)
    (h2 : w.targetHead = gm.target_repo_info.current_branch)
    (hs : gm.source_repo_info.original_branch ∈ w.sourceBranches)
    (ht : gm.target_repo_info.original_branch ∈ w.targetBranches) :
    ((restore_original_branches gm w).1.2).sourceHead =
        gm.source_repo_info.original_branch ∧
      ((restore_original_branches gm w).1.2).targetHead =
        gm.target_repo_info.original_branch ∧
      ((restore_original_branches gm w).1.2).targetStash = w.targetStash := by
  rw [restore_original_branches]
  by_cases hc1 : gm.source_repo_info.current_branch =
      gm.source_repo_info.original_branch
  · rw [if_neg (fun hne => hne hc1)]
    simp only
    by_cases hc2 : gm.target_repo_info.current_branch =
        gm.target_repo_info.original_branch
    · rw [if_neg (fun hne => hne hc2)]
      exact ⟨h1.trans hc1, h2.trans hc2, rfl⟩
    · rw [if_pos hc2, switch_branch_tgt _ _ _ ht]
      exact ⟨h1.trans hc1, rfl, rfl⟩
  · rw [if_pos hc1, switch_branch_src _ _ _ hs]
    simp only
    by_cases hc2 : gm.target_repo_info.current_branch =
        gm.target_repo_info.original_branch
    · rw [if_neg (fun hne => hne hc2)]
      exact ⟨rfl, h2.trans hc2, rfl⟩
    · rw [if_pos hc2]
      have ht2 : gm.target_repo_info.original_branch ∈
          ({ w with sourceHead := gm.source_repo_info.original_branch } :
            GWorld).targetBranches := ht
      rw [switch_branch_tgt _ _ _ ht2]
      exact ⟨rfl, rfl, rfl⟩

/-- C1 counterexample: a run in which every step succeeds, with the default
configuration, on a world whose target repository sits on `master` and has no
`main` branch: `main` creates and checks out the default target branch
`main`, the run completes normally (`Ok`), yet at exit the target HEAD is
`main` while the run started on `master` — the original branch is not
restored (the stale handle makes `restore_original_branches` skip it). -/
theorem c1_counterexample :
    (mainRun cfgAll envAll wSplit).1 = .ok () ∧
    ((mainRun cfgAll envAll wSplit).2.1).targetHead = "main" ∧
    wSplit.targetHead = "master" := ⟨rfl, rfl, rfl⟩

/-- C1 (amended): when the pre-flight phase succeeds with the computed target
branch already existing (switched, not created), the original branches still
exist, the TUI starts, and the stash pop succeeds, then at process exit —
whether the application phase succeeded or failed — both repositories are
back on their original branches and the stash depth equals its initial value
(no stash entry created by the run remains).  Runs that abort before the TUI,
or that create the target branch, exit with mutated state instead. -/
theorem c1_theorem (cfg : Config) (env : MainEnv) (w0 : GWorld)
    (hc : env.cfgValid = true) (ho : env.openOk = true)
    (hv : env.validStart = true) (hve : env.validEnd = true)
    (hsb : ∀ b, cfg.source_branch = some b → b ∈ w0.sourceBranches)
    (htb : get_default_target_branch cfg ∈ w0.targetBranches)
    (hd : env.dirty = true → cfg.auto_stash.getD true = true ∧
      env.sigOk = true ∧ env.stashOutcome = StashSaveOutcome.saved)
    (htui : env.tuiOk = true) (hpop : env.popOk = true)
    (hso : w0.sourceHead ∈ w0.sourceBranches)
    (hto : w0.targetHead ∈ w0.targetBranches) :
    ((mainRun cfg env w0).2.1).sourceHead = w0.sourceHead ∧
      ((mainRun cfg env w0).2.1).targetHead = w0.targetHead ∧
      ((mainRun cfg env w0).2.1).targetStash = w0.targetStash := by
  rw [mainRun, mainSetup_ok cfg env w0 hc ho hv hve hsb htb hd]
  simp only [htui, Bool.not_true, Bool.false_eq_true, if_false]
  set gmr : GitManager :=
    ⟨⟨"source", cfg.source_branch.getD w0.sourceHead, w0.sourceHead⟩,
     ⟨"target", get_default_target_branch cfg, w0.targetHead⟩⟩ with hgmr
  set wr : GWorld :=
    { w0 with
        sourceHead := cfg.source_branch.getD w0.sourceHead,
        targetHead := get_default_target_branch cfg,
        targetStash := w0.targetStash + (if env.dirty then 1 else 0) }
    with hwr
  have hpopped :
      (if env.dirty = true then
        match pop_stash env.popOk wr with
        | .ok w' => w'
        | .error _ => wr
       else wr) =
      { wr with targetStash := w0.targetStash } := by
    cases hdv : env.dirty with
    | false =>
      simp only [Bool.false_eq_true, if_false]
      rw [hwr]
      simp [hdv]
    | true =>
      simp only [if_true]
      rw [pop_stash, hwr]
      simp [hpop, hdv]
  rw [hpopped]
  have hres := restore_ok gmr { wr with targetStash := w0.targetStash }
    (by rw [hwr, hgmr]) (by rw [hwr, hgmr])
    (by rw [hwr, hgmr]; simpa using hso)
    (by rw [hwr, hgmr]; simpa using hto)
  rw [hgmr] at hres
  simpa using hres


/-- C1 witness: with the target branch pre-existing and all cleanup steps
succeeding, an end-to-end run restores both branches and the stash depth. -/
theorem c1_witness :
    ((mainRun cfgAll envAll wMain).2.1).sourceHead = wMain.sourceHead ∧
      ((mainRun cfgAll envAll wMain).2.1).targetHead = wMain.targetHead ∧
      ((mainRun cfgAll envAll wMain).2.1).targetStash = wMain.targetStash :=
  c1_theorem cfgAll envAll wMain rfl rfl rfl rfl
    (by intro b h; simp [cfgAll] at h)
    (by decide)
    (by intro h; simp [envAll] at h)
    rfl rfl (by decide) (by decide)

/-- A target-repository branch creation for a fresh name succeeds, adds the
branch, repoints HEAD, and (per the flag inversion) leaves the manager
untouched. -/
theorem create_branch_tgt (b : String) (gm : GitManager) (w : GWorld)
    (h : b ∉ w.targetBranches) :
    create_branch false b gm w =
      .ok (gm, { w with targetBranches := b :: w.targetBranches,
                        targetHead := b }) := by
  simp [create_branch, h]

/-- C5 counterexample: a run with a requested source branch `dev`, a dirty
target and auto-stash disabled aborts with the uncommitted-changes error, but
only after the source repository has been switched from `main` to `dev` —
the abort does not precede branch switching, and the mutation persists. -/
theorem c5_counterexample :
    (mainRun cfgC5 envC5 wC5).1 = .error .dirtyRepo ∧
      ((mainRun cfgC5 envC5 wC5).2.1).sourceHead = "dev" ∧
      wC5.sourceHead = "main" := ⟨rfl, rfl, rfl⟩

/-- C5 (amended): when the target repository is dirty and auto-stash is
explicitly disabled (and the earlier validation and branch steps succeed),
the run aborts with the uncommitted-changes error before any stash is
created and before the application/sync phase runs — but only after the
branch switches/creation, whose mutations are kept (see the
counterexample). -/
theorem c5_theorem (cfg : Config) (env : MainEnv) (w0 : GWorld)
    (hc : env.cfgValid = true) (ho : env.openOk = true)
    (hv : env.validStart = true) (hve : env.validEnd = true)
    (hsb : ∀ b, cfg.source_branch = some b → b ∈ w0.sourceBranches)
    (htb : get_default_target_branch cfg ∈ w0.targetBranches ∨
      cfg.create_branch.getD true = true)
    (hdirty : env.dirty = true) (hstash : cfg.auto_stash = some false) :
    (mainRun cfg env w0).1 = .error .dirtyRepo ∧
      ((mainRun cfg env w0).2.1).targetStash = w0.targetStash ∧
      (mainRun cfg env w0).2.2 = false := by
  have key : ∃ w2 : GWorld, mainSetup cfg env w0 =
      .error (.dirtyRepo, w2) ∧ w2.targetStash = w0.targetStash := by
    rw [mainSetup, hc, ho, hv, hve]
    simp only [Bool.not_true, Bool.false_eq_true, if_false, Bool.and_false]
    cases hsbv : cfg.source_branch with
    | none =>
      simp only
      by_cases hmem : get_default_target_branch cfg ∈ w0.targetBranches
      · rw [if_pos hmem, switch_branch_tgt _ _ _ hmem]
        simp only [Except.mapError, hdirty, if_true]
        rw [hstash]
        simp only [Option.getD_some, Bool.false_eq_true, if_false]
        exact ⟨_, rfl, rfl⟩
      · have hcr : cfg.create_branch.getD true = true :=
          htb.resolve_left hmem
        rw [if_neg hmem, if_pos hcr, create_branch_tgt _ _ _ hmem]
        simp only [Except.mapError, hdirty, if_true]
        rw [hstash]
        simp only [Option.getD_some, Bool.false_eq_true, if_false]
        exact ⟨_, rfl, rfl⟩
    | some b =>
      have hb := hsb b hsbv
      simp only
      rw [switch_branch_src b _ _ hb]
      simp only [Except.mapError]
      by_cases hmem : get_default_target_branch cfg ∈
          ({ w0 with sourceHead := b } : GWorld).targetBranches
      · rw [if_pos hmem, switch_branch_tgt _ _ _ hmem]
        simp only [Except.mapError, hdirty, if_true]
        rw [hstash]
        simp only [Option.getD_some, Bool.false_eq_true, if_false]
        exact ⟨_, rfl, rfl⟩
      · have hcr : cfg.create_branch.getD true = true := by
          refine htb.resolve_left ?_
          simpa using hmem
        rw [if_neg hmem, if_pos hcr, create_branch_tgt _ _ _ hmem]
        simp only [Except.mapError, hdirty, if_true]
        rw [hstash]
        simp only [Option.getD_some, Bool.false_eq_true, if_false]
        exact ⟨_, rfl, rfl⟩
  obtain ⟨w2, hset, hst⟩ := key
  rw [mainRun, hset]
  exact ⟨rfl, hst, rfl⟩

/-- C5 witness: the amended theorem applied to the concrete dirty run with
auto-stash disabled. -/
theorem c5_witness :
    (mainRun cfgC5 envC5 wC5).1 = .error .dirtyRepo ∧
      ((mainRun cfgC5 envC5 wC5).2.1).targetStash = wC5.targetStash ∧
      (mainRun cfgC5 envC5 wC5).2.2 = false :=
  c5_theorem cfgC5 envC5 wC5 rfl rfl rfl rfl
    (by intro b h
        simp [cfgC5] at h
        subst h
        decide)
    (Or.inl (by decide))
    rfl rfl

end SyncSubdir
